import Mathlib

/-!
Verification of the summed-area-table (integral image) implementation in
`src/integral.cpp` / `src/integral.hpp` of the repository.

The C++ code is shallowly embedded: grids (`std::vector<u32>`) and tables
(`std::vector<u64>`) become `List Nat`; 64-bit unsigned arithmetic is modelled
exactly, as arithmetic modulo `2^64` (`u64Mod`); each `for` loop becomes a
structurally recursive function on the number of iterations already performed,
threading the mutable buffer (`List.set` for `buf[i] = v`) and the scalar
accumulator through explicit state.  The thread decomposition of
`computeIntegralMulti` is embedded as a fold over the thread ids `0..num_threads-1`
executing the loop body of each worker in order; the phases are deterministic and the
workers write disjoint index ranges, so this sequentialisation is the
denotation of the fork-join program.
-/

namespace IntImg

/-- Modulus of C++ `u64` arithmetic: 2^64. -/
def u64Mod : Nat := 18446744073709551616

/-- Sum of `f i` for `i < n`. -/
def sumBelow (f : Nat → Nat) : Nat → Nat
  | 0 => 0
  | n+1 => sumBelow f n + f n

/-- Sum of the samples of row `y` at columns `i < x` (row-major layout). -/
def rowTo (img : List Nat) (w y x : Nat) : Nat :=
  sumBelow (fun i => img.getD (y*w + i) 0) x

/-- Sum of `img[j*w+i]` over `i < x`, `j < y` (exclusive upper bounds). -/
def exRect (img : List Nat) (w x y : Nat) : Nat :=
  sumBelow (fun j => rowTo img w j x) y

/-- Sum of `img[j*w+i]` over `0 ≤ i ≤ x`, `0 ≤ j ≤ y`: the right-hand side of
the SAT invariant of the spec. -/
def rectSum (img : List Nat) (w x y : Nat) : Nat :=
  exRect img w (x+1) (y+1)

/-- Sum of `img[y*w+x]` over the inclusive rectangle `x0 ≤ x ≤ x1`, `y0 ≤ y ≤ y1`. -/
def rectBox (img : List Nat) (w x0 y0 x1 y1 : Nat) : Nat :=
  sumBelow (fun j => sumBelow (fun i => img.getD ((y0+j)*w + (x0+i)) 0) (x1+1-x0)) (y1+1-y0)

/-! ## computeIntegralSingle (integral.cpp lines 32-44)

Loop body of the inner `x` loop: state is `(integral, row_sum)`.
`row_sum += img[base + x]` and `integral[base + x] = row_sum + above`
with `above = (y>0) ? integral[(y-1)*w + x] : 0`, all in `u64`. -/

def singleRowStep (img : List Nat) (w y x : Nat) (st : List Nat × Nat) : List Nat × Nat :=
  let row_sum := (st.2 + img.getD (y*w + x) 0) % u64Mod
  let above := if 0 < y then st.1.getD ((y-1)*w + x) 0 else 0
  (st.1.set (y*w + x) ((row_sum + above) % u64Mod), row_sum)

/-- State after the first `x` iterations of the inner loop of row `y`
(`row_sum` starts at 0). -/
def singleRowIter (img : List Nat) (w y : Nat) (integral : List Nat) : Nat → List Nat × Nat
  | 0 => (integral, 0)
  | x+1 => singleRowStep img w y x (singleRowIter img w y integral x)

/-- Buffer after the outer loop has processed rows `0 .. y-1` (each row runs
its inner loop for all `w` columns). -/
def singleRowsIter (img : List Nat) (w : Nat) (integral : List Nat) : Nat → List Nat
  | 0 => integral
  | y+1 => (singleRowIter img w y (singleRowsIter img w integral y) w).1

/-- `computeIntegralSingle` of integral.cpp: guard `w==0 || h==0` clears the
output; otherwise `integral.assign(w*h, 0)` then the row-major double loop.
The `integral` argument is the previous content of the output buffer, which the
function never reads. -/
def computeIntegralSingle (img : List Nat) (w h : Nat) (integral : List Nat) : List Nat :=
  if w = 0 ∨ h = 0 then [] else singleRowsIter img w (List.replicate (w*h) 0) h

/-! ## computeIntegralMulti (integral.cpp lines 46-87) -/

/-- Clamp of line 48: `if(num_threads < 1) num_threads = 1;`
(`num_threads` is a C++ `int`, so it may be zero or negative). -/
def clampThreads (num_threads : Int) : Nat :=
  (if num_threads < 1 then 1 else num_threads).toNat

/-- Phase-1 inner loop body: `s += img[base + x]; rowCum[base + x] = s;`. -/
def multiRowStep (img : List Nat) (w y x : Nat) (st : List Nat × Nat) : List Nat × Nat :=
  let s := (st.2 + img.getD (y*w + x) 0) % u64Mod
  (st.1.set (y*w + x) s, s)

/-- State after the first `x` iterations of the phase-1 inner loop of row `y`. -/
def multiRowIter (img : List Nat) (w y : Nat) (rowCum : List Nat) : Nat → List Nat × Nat
  | 0 => (rowCum, 0)
  | x+1 => multiRowStep img w y x (multiRowIter img w y rowCum x)

/-- Phase-1 worker loop: rows `y0 .. y0+k-1`, each for all `w` columns. -/
def multiRowsFrom (img : List Nat) (w y0 : Nat) (rowCum : List Nat) : Nat → List Nat
  | 0 => rowCum
  | k+1 => (multiRowIter img w (y0+k) (multiRowsFrom img w y0 rowCum k) w).1

/-- Phase 1 after the workers with tid `0 .. t-1` have run: worker `tid`
covers rows `[tid*rows_per, min h (tid*rows_per + rows_per))` with
`rows_per = (h + num_threads - 1) / num_threads`.  The workers write disjoint
row blocks, so running them in tid order is the joint effect of the fork-join. -/
def phase1Tids (img : List Nat) (w h nt : Nat) (rowCum : List Nat) : Nat → List Nat
  | 0 => rowCum
  | t+1 =>
    let rows_per := (h + nt - 1) / nt
    let y0 := t * rows_per
    let y1 := min h (y0 + rows_per)
    multiRowsFrom img w y0 (phase1Tids img w h nt rowCum t) (y1 - y0)

/-- Phase-2 inner loop body: `s += rowCum[y*w + x]; integral[y*w + x] = s;`. -/
def multiColStep (rowCum : List Nat) (w x y : Nat) (st : List Nat × Nat) : List Nat × Nat :=
  let s := (st.2 + rowCum.getD (y*w + x) 0) % u64Mod
  (st.1.set (y*w + x) s, s)

/-- State after the first `y` iterations of the phase-2 inner loop of column `x`. -/
def multiColIter (rowCum : List Nat) (w x : Nat) (integral : List Nat) : Nat → List Nat × Nat
  | 0 => (integral, 0)
  | y+1 => multiColStep rowCum w x y (multiColIter rowCum w x integral y)

/-- Phase-2 worker loop: columns `x0 .. x0+k-1`, each for all `h` rows. -/
def multiColsFrom (rowCum : List Nat) (w h x0 : Nat) (integral : List Nat) : Nat → List Nat
  | 0 => integral
  | k+1 => (multiColIter rowCum w (x0+k) (multiColsFrom rowCum w h x0 integral k) h).1

/-- Phase 2 after the workers with tid `0 .. t-1` have run: worker `tid`
covers columns `[tid*cols_per, min w (tid*cols_per + cols_per))` with
`cols_per = (w + num_threads - 1) / num_threads`. -/
def phase2Tids (rowCum : List Nat) (w h nt : Nat) (integral : List Nat) : Nat → List Nat
  | 0 => integral
  | t+1 =>
    let cols_per := (w + nt - 1) / nt
    let x0 := t * cols_per
    let x1 := min w (x0 + cols_per)
    multiColsFrom rowCum w h x0 (phase2Tids rowCum w h nt integral t) (x1 - x0)

/-- `computeIntegralMulti` of integral.cpp: guard, clamp, zero the output and
the intermediate `rowCum`, run phase 1 (per-row prefix sums) on all threads,
join (barrier), then run phase 2 (per-column prefix sums) on all threads. -/
def computeIntegralMulti (img : List Nat) (w h : Nat) (integral : List Nat)
    (num_threads : Int) : List Nat :=
  if w = 0 ∨ h = 0 then [] else
  let nt := clampThreads num_threads
  let rowCum := phase1Tids img w h nt (List.replicate (w*h) 0) nt
  phase2Tids rowCum w h nt (List.replicate (w*h) 0) nt

/-! ## computeIntegralNaive (integral.cpp lines 119-129) -/

/-- Innermost loop `for(j=0;j<=y;++j) s += img[j*w + i]`, run for `j < cnt`
starting from accumulator `s`. -/
def naiveLoopJ (img : List Nat) (w i : Nat) (s : Nat) : Nat → Nat
  | 0 => s
  | j+1 => (naiveLoopJ img w i s j + img.getD (j*w + i) 0) % u64Mod

/-- Middle loop `for(i=0;i<=x;++i)`, run for `i < cnt`, inner loop fully
executed for `j ≤ y`; accumulator starts at 0. -/
def naiveLoopI (img : List Nat) (w y : Nat) : Nat → Nat
  | 0 => 0
  | i+1 => naiveLoopJ img w i (naiveLoopI img w y i) (y+1)

/-- Buffer after the `x` loop of row `y` has run for `x < cnt`:
`integral[y*w + x] = s` with `s` the brute-force rectangle sum. -/
def naiveRowIter (img : List Nat) (w y : Nat) (integral : List Nat) : Nat → List Nat
  | 0 => integral
  | x+1 => (naiveRowIter img w y integral x).set (y*w + x) (naiveLoopI img w y (x+1))

/-- Buffer after the `y` loop has processed rows `0 .. cnt-1`. -/
def naiveRowsIter (img : List Nat) (w : Nat) (integral : List Nat) : Nat → List Nat
  | 0 => integral
  | y+1 => naiveRowIter img w y (naiveRowsIter img w integral y) w

/-- `computeIntegralNaive` of integral.cpp: each cell recomputed by brute
force over the rectangle from the origin. -/
def computeIntegralNaive (img : List Nat) (w h : Nat) (integral : List Nat) : List Nat :=
  if w = 0 ∨ h = 0 then [] else naiveRowsIter img w (List.replicate (w*h) 0) h

/-! ## Rectangle query (tests/test_integral.cpp lines 39-49) -/

/-- C++ `u64` subtraction `a - b` (wraparound modulo 2^64). -/
def sub64 (a b : Nat) : Nat := (a % u64Mod + (u64Mod - b % u64Mod)) % u64Mod

/-- The inclusion-exclusion rectangle query of the test harness:
`A - B - C + D` evaluated in `u64` arithmetic, where the corner terms below or
left of the rectangle are 0 when the rectangle touches the grid border. -/
def rectangleSum (I : List Nat) (w x0 y0 x1 y1 : Nat) : Nat :=
  let A := I.getD (y1*w + x1) 0
  let B := if 0 < y0 then I.getD ((y0-1)*w + x1) 0 else 0
  let C := if 0 < x0 then I.getD (y1*w + (x0-1)) 0 else 0
  let D := if 0 < x0 ∧ 0 < y0 then I.getD ((y0-1)*w + (x0-1)) 0 else 0
  (sub64 (sub64 A B) C + D) % u64Mod

/-! ## Harness verification layer (integral.cpp lines 140-144 and 189-195) -/

/-- `equalIntegral`: false if the sizes differ, otherwise scan all indices for
a mismatch. -/
def equalIntegral (a b : List Nat) : Bool :=
  if a.length ≠ b.length then false
  else (List.range a.length).all fun i => a.getD i 0 == b.getD i 0

/-- The cross-validation step of `main` (lines 192-195), abstracted over the
two tables it has just built: `some 2` means `main` returns exit status 2
immediately (before any benchmarking); `none` means it proceeds to the
benchmark section. -/
def mainCrossCheck (I_single I_multi : List Nat) : Option Nat :=
  if !(equalIntegral I_single I_multi) then some 2 else none

/-! ## Basic helper lemmas -/

theorem u64Mod_pos : 0 < u64Mod := by norm_num [u64Mod]

theorem getD_set_eq (l : List Nat) (i v : Nat) (h : i < l.length) :
    (l.set i v).getD i 0 = v := by
  rw [List.getD_eq_getElem _ _ (by simpa using h)]
  simp

theorem getD_set_ne (l : List Nat) (i j v : Nat) (h : i ≠ j) :
    (l.set i v).getD j 0 = l.getD j 0 := by
  rcases Nat.lt_or_ge j l.length with hj | hj
  · rw [List.getD_eq_getElem _ _ (by simpa using hj), List.getD_eq_getElem _ _ hj]
    exact List.getElem_set_ne h _
  · rw [List.getD_eq_default _ _ (by simpa using hj), List.getD_eq_default _ _ hj]

theorem getD_replicate (n v i : Nat) (h : i < n) :
    (List.replicate n v).getD i 0 = v := by
  rw [List.getD_eq_getElem _ _ (by simpa using h)]
  simp

theorem ext_getD (a b : List Nat) (hl : a.length = b.length)
    (he : ∀ i, i < a.length → a.getD i 0 = b.getD i 0) : a = b := by
  apply List.ext_getElem hl
  intro i h1 h2
  have h3 := he i h1
  rwa [List.getD_eq_getElem _ _ h1, List.getD_eq_getElem _ _ h2] at h3

theorem sumBelow_congr {f g : Nat → Nat} {n : Nat} (h : ∀ i, i < n → f i = g i) :
    sumBelow f n = sumBelow g n := by
  induction n with
  | zero => rfl
  | succ n ih =>
    simp only [sumBelow]
    rw [ih (fun i hi => h i (by omega)), h n (by omega)]

theorem sumBelow_add_split (f : Nat → Nat) (a b : Nat) :
    sumBelow f (a+b) = sumBelow f a + sumBelow (fun k => f (a+k)) b := by
  induction b with
  | zero => simp [sumBelow]
  | succ b ih => rw [Nat.add_succ]; simp only [sumBelow, ih]; omega

theorem sumBelow_le_of_le (f : Nat → Nat) {m n : Nat} (h : m ≤ n) :
    sumBelow f m ≤ sumBelow f n := by
  have h2 : n = m + (n - m) := by omega
  rw [h2, sumBelow_add_split]
  omega

theorem sumBelow_mono_fun {f g : Nat → Nat} {n : Nat} (h : ∀ i, i < n → f i ≤ g i) :
    sumBelow f n ≤ sumBelow g n := by
  induction n with
  | zero => simp [sumBelow]
  | succ n ih =>
    simp only [sumBelow]
    have h1 := ih (fun i hi => h i (by omega))
    have h2 := h n (by omega)
    omega

theorem sumBelow_add_distrib (f g : Nat → Nat) (n : Nat) :
    sumBelow (fun i => f i + g i) n = sumBelow f n + sumBelow g n := by
  induction n with
  | zero => rfl
  | succ n ih => simp only [sumBelow, ih]; omega

theorem sumBelow_shift (f : Nat → Nat) (n : Nat) :
    sumBelow f (n+1) = f 0 + sumBelow (fun k => f (k+1)) n := by
  induction n with
  | zero => simp [sumBelow]
  | succ n ih => simp only [sumBelow] at *; omega

theorem sumBelow_mod (g : Nat → Nat) (n : Nat) :
    sumBelow (fun j => g j % u64Mod) n % u64Mod = sumBelow g n % u64Mod := by
  induction n with
  | zero => rfl
  | succ n ih => simp only [sumBelow, u64Mod] at *; omega

theorem sumBelow_getD_length (l : List Nat) :
    sumBelow (fun k => l.getD k 0) l.length = l.sum := by
  induction l with
  | nil => rfl
  | cons a t ih =>
    rw [List.length_cons, sumBelow_shift]
    simp only [List.getD_cons_zero, List.getD_cons_succ, List.sum_cons, ih]

theorem sumBelow_replicate (n v : Nat) {k : Nat} (h : k ≤ n) :
    sumBelow (fun j => (List.replicate n v).getD j 0) k = k * v := by
  induction k with
  | zero => simp [sumBelow]
  | succ k ih =>
    simp only [sumBelow]
    rw [ih (by omega), getD_replicate n v k (by omega)]
    ring

/-- Row-major index arithmetic: a cell of a `w × h` grid is inside the buffer. -/
theorem idx_lt {x w y h : Nat} (hx : x < w) (hy : y < h) : y*w + x < w*h := by
  calc y*w + x < y*w + w := by omega
  _ = (y+1)*w := by ring
  _ ≤ h*w := Nat.mul_le_mul_right w hy
  _ = w*h := Nat.mul_comm h w

/-- Row-major indices are injective on coordinates with `x < w`. -/
theorem idx_inj {w x y x' y' : Nat} (hx : x < w) (hx' : x' < w)
    (he : y*w + x = y'*w + x') : y = y' ∧ x = x' := by
  have hw : 0 < w := by omega
  have h1 : (w*y + x) / w = y := by
    rw [Nat.mul_add_div hw, Nat.div_eq_of_lt hx, Nat.add_zero]
  have h2 : (w*y' + x') / w = y' := by
    rw [Nat.mul_add_div hw, Nat.div_eq_of_lt hx', Nat.add_zero]
  have he' : w*y + x = w*y' + x' := by
    rw [Nat.mul_comm w y, Nat.mul_comm w y']; exact he
  have hy : y = y' := by rw [← h1, ← h2, he']
  subst hy
  refine ⟨rfl, by omega⟩

/-- A row block lies below the next row: used for disjointness of row writes. -/
theorem row_block_lt {x w y y' : Nat} (hx : x < w) (hy : y < y') :
    y*w + x < y'*w := by
  calc y*w + x < y*w + w := by omega
  _ = (y+1)*w := by ring
  _ ≤ y'*w := Nat.mul_le_mul_right w hy

/-! ## Characterisation of computeIntegralSingle -/

theorem rectSum_zero_row (img : List Nat) (w x : Nat) :
    rectSum img w x 0 = rowTo img w 0 (x+1) := by
  simp [rectSum, exRect, sumBelow]

theorem rectSum_succ_row (img : List Nat) (w x y : Nat) :
    rectSum img w x (y+1) = rectSum img w x y + rowTo img w (y+1) (x+1) := rfl

theorem singleRowIter_fst_length (img : List Nat) (w y : Nat) (ig : List Nat) (x : Nat) :
    ((singleRowIter img w y ig x).1).length = ig.length := by
  induction x with
  | zero => rfl
  | succ x ih => simp only [singleRowIter, singleRowStep, List.length_set]; exact ih

theorem singleRowIter_snd (img : List Nat) (w y : Nat) (ig : List Nat) (x : Nat) :
    (singleRowIter img w y ig x).2 = rowTo img w y x % u64Mod := by
  induction x with
  | zero => simp [singleRowIter, rowTo, sumBelow, u64Mod]
  | succ x ih =>
    simp only [singleRowIter, singleRowStep, ih, rowTo, sumBelow]
    rw [Nat.mod_add_mod]

theorem singleRowIter_getD_out (img : List Nat) (w y : Nat) (ig : List Nat) (x k : Nat)
    (hk : k < y*w ∨ y*w + x ≤ k) :
    ((singleRowIter img w y ig x).1).getD k 0 = ig.getD k 0 := by
  induction x with
  | zero => rfl
  | succ x ih =>
    simp only [singleRowIter, singleRowStep]
    rw [getD_set_ne _ _ _ _ (by omega)]
    exact ih (by omega)

theorem singleRowIter_getD_in (img : List Nat) (w h y : Nat) (ig : List Nat) (x : Nat)
    (hlen : ig.length = w*h) (hy : y < h) (hxw : x ≤ w) : ∀ x' < x,
    ((singleRowIter img w y ig x).1).getD (y*w + x') 0
      = (rowTo img w y (x'+1) % u64Mod
          + (if 0 < y then ig.getD ((y-1)*w + x') 0 else 0)) % u64Mod := by
  induction x with
  | zero => intro x' hx'; omega
  | succ x ih =>
    intro x' hx'
    simp only [singleRowIter, singleRowStep]
    rcases Nat.lt_or_ge x' x with hlt | hge
    · rw [getD_set_ne _ _ _ _ (by omega)]
      exact ih (by omega) x' hlt
    · have hx'x : x' = x := by omega
      rw [hx'x]
      have hset : y*w + x < ((singleRowIter img w y ig x).1).length := by
        rw [singleRowIter_fst_length, hlen]
        exact idx_lt (by omega) hy
      rw [getD_set_eq _ _ _ hset]
      have hrs : ((singleRowIter img w y ig x).2 + img.getD (y*w + x) 0) % u64Mod
          = rowTo img w y (x+1) % u64Mod := by
        rw [singleRowIter_snd, Nat.mod_add_mod]
        rfl
      rw [hrs]
      by_cases hy0 : 0 < y
      · rw [if_pos hy0, if_pos hy0]
        have h1 : (y-1)*w + w = y*w := by
          cases y with
          | zero => omega
          | succ z => simp [Nat.succ_sub_one, Nat.succ_mul]
        rw [singleRowIter_getD_out _ _ _ _ _ _ (Or.inl (by omega))]
      · rw [if_neg hy0, if_neg hy0]

theorem singleRowsIter_length (img : List Nat) (w : Nat) (ig : List Nat) (y : Nat) :
    (singleRowsIter img w ig y).length = ig.length := by
  induction y with
  | zero => rfl
  | succ y ih => simp only [singleRowsIter, singleRowIter_fst_length]; exact ih

theorem singleRowsIter_getD (img : List Nat) (w h : Nat) (y : Nat) (hy : y ≤ h) :
    ∀ y' < y, ∀ x < w,
    (singleRowsIter img w (List.replicate (w*h) 0) y).getD (y'*w + x) 0
      = rectSum img w x y' % u64Mod := by
  induction y with
  | zero => intro y' hy'; omega
  | succ y ih =>
    intro y' hy' x hx
    simp only [singleRowsIter]
    rcases Nat.lt_or_ge y' y with hlt | hge
    · rw [singleRowIter_getD_out _ _ _ _ _ _ (Or.inl (row_block_lt hx hlt))]
      exact ih (by omega) y' hlt x hx
    · have hy'y : y' = y := by omega
      rw [hy'y]
      rw [singleRowIter_getD_in img w h y (singleRowsIter img w (List.replicate (w*h) 0) y) w
        (by rw [singleRowsIter_length, List.length_replicate]) (by omega) le_rfl x hx]
      cases y with
      | zero =>
        rw [if_neg (by omega : ¬ 0 < 0), Nat.add_zero, Nat.mod_mod_of_dvd _ dvd_rfl,
          rectSum_zero_row]
      | succ z =>
        rw [if_pos (Nat.succ_pos z)]
        simp only [Nat.succ_sub_one]
        rw [ih (by omega) z (by omega) x hx]
        rw [rectSum_succ_row]
        simp only [u64Mod]
        omega

theorem computeIntegralSingle_getD (img : List Nat) (w h : Nat) (buf : List Nat)
    {x y : Nat} (hx : x < w) (hy : y < h) :
    (computeIntegralSingle img w h buf).getD (y*w + x) 0 = rectSum img w x y % u64Mod := by
  have hwh : ¬(w = 0 ∨ h = 0) := by omega
  simp only [computeIntegralSingle, if_neg hwh]
  exact singleRowsIter_getD img w h h le_rfl y hy x hx

theorem computeIntegralSingle_length (img : List Nat) (w h : Nat) (buf : List Nat)
    (hw : w ≠ 0) (hh : h ≠ 0) :
    (computeIntegralSingle img w h buf).length = w*h := by
  have hwh : ¬(w = 0 ∨ h = 0) := by omega
  simp only [computeIntegralSingle, if_neg hwh]
  rw [singleRowsIter_length, List.length_replicate]

/-! ## Characterisation of computeIntegralNaive -/

theorem sumBelow_zero_fun (n : Nat) : sumBelow (fun _ => 0) n = 0 := by
  induction n with
  | zero => rfl
  | succ n ih => simp only [sumBelow, ih]

theorem sumBelow_swap (f : Nat → Nat → Nat) (m n : Nat) :
    sumBelow (fun i => sumBelow (fun j => f i j) n) m
      = sumBelow (fun j => sumBelow (fun i => f i j) m) n := by
  induction m with
  | zero => simp [sumBelow, sumBelow_zero_fun]
  | succ m ih =>
    have h1 : sumBelow (fun i => sumBelow (fun j => f i j) n) (m+1)
        = sumBelow (fun i => sumBelow (fun j => f i j) n) m + sumBelow (fun j => f m j) n := rfl
    rw [h1, ih, ← sumBelow_add_distrib]
    exact sumBelow_congr (fun j _ => rfl)

theorem naiveLoopJ_eq (img : List Nat) (w i s cnt : Nat) :
    naiveLoopJ img w i s (cnt+1)
      = (s + sumBelow (fun j => img.getD (j*w + i) 0) (cnt+1)) % u64Mod := by
  induction cnt with
  | zero => simp [naiveLoopJ, sumBelow]
  | succ c ih =>
    have hstep : naiveLoopJ img w i s (c+1+1)
        = (naiveLoopJ img w i s (c+1) + img.getD ((c+1)*w + i) 0) % u64Mod := rfl
    rw [hstep, ih, Nat.mod_add_mod]
    have hsum : sumBelow (fun j => img.getD (j*w + i) 0) (c+1+1)
        = sumBelow (fun j => img.getD (j*w + i) 0) (c+1) + img.getD ((c+1)*w + i) 0 := rfl
    rw [hsum, Nat.add_assoc]

theorem naiveLoopI_eq (img : List Nat) (w y cnt : Nat) :
    naiveLoopI img w y (cnt+1)
      = sumBelow (fun i => sumBelow (fun j => img.getD (j*w + i) 0) (y+1)) (cnt+1) % u64Mod := by
  induction cnt with
  | zero =>
    have h0 : naiveLoopI img w y 1 = naiveLoopJ img w 0 0 (y+1) := rfl
    rw [h0, naiveLoopJ_eq]
    simp [sumBelow]
  | succ c ih =>
    have hstep : naiveLoopI img w y (c+1+1)
        = naiveLoopJ img w (c+1) (naiveLoopI img w y (c+1)) (y+1) := rfl
    rw [hstep, naiveLoopJ_eq, ih, Nat.mod_add_mod]
    rfl

theorem naiveCell_eq (img : List Nat) (w x y : Nat) :
    naiveLoopI img w y (x+1) = rectSum img w x y % u64Mod := by
  rw [naiveLoopI_eq]
  congr 1
  rw [sumBelow_swap]
  rfl

theorem naiveRowIter_length (img : List Nat) (w y : Nat) (ig : List Nat) (x : Nat) :
    (naiveRowIter img w y ig x).length = ig.length := by
  induction x with
  | zero => rfl
  | succ x ih => simp only [naiveRowIter, List.length_set]; exact ih

theorem naiveRowIter_getD_out (img : List Nat) (w y : Nat) (ig : List Nat) (x k : Nat)
    (hk : k < y*w ∨ y*w + x ≤ k) :
    (naiveRowIter img w y ig x).getD k 0 = ig.getD k 0 := by
  induction x with
  | zero => rfl
  | succ x ih =>
    simp only [naiveRowIter]
    rw [getD_set_ne _ _ _ _ (by omega)]
    exact ih (by omega)

theorem naiveRowIter_getD_in (img : List Nat) (w h y : Nat) (ig : List Nat) (x : Nat)
    (hlen : ig.length = w*h) (hy : y < h) (hxw : x ≤ w) : ∀ x' < x,
    (naiveRowIter img w y ig x).getD (y*w + x') 0 = naiveLoopI img w y (x'+1) := by
  induction x with
  | zero => intro x' hx'; omega
  | succ x ih =>
    intro x' hx'
    simp only [naiveRowIter]
    rcases Nat.lt_or_ge x' x with hlt | hge
    · rw [getD_set_ne _ _ _ _ (by omega)]
      exact ih (by omega) x' hlt
    · have hx'x : x' = x := by omega
      rw [hx'x]
      rw [getD_set_eq _ _ _ (by rw [naiveRowIter_length, hlen]; exact idx_lt (by omega) hy)]

theorem naiveRowsIter_length (img : List Nat) (w : Nat) (ig : List Nat) (y : Nat) :
    (naiveRowsIter img w ig y).length = ig.length := by
  induction y with
  | zero => rfl
  | succ y ih => simp only [naiveRowsIter, naiveRowIter_length]; exact ih

theorem naiveRowsIter_getD (img : List Nat) (w h : Nat) (y : Nat) (hy : y ≤ h) :
    ∀ y' < y, ∀ x < w,
    (naiveRowsIter img w (List.replicate (w*h) 0) y).getD (y'*w + x) 0
      = rectSum img w x y' % u64Mod := by
  induction y with
  | zero => intro y' hy'; omega
  | succ y ih =>
    intro y' hy' x hx
    simp only [naiveRowsIter]
    rcases Nat.lt_or_ge y' y with hlt | hge
    · rw [naiveRowIter_getD_out _ _ _ _ _ _ (Or.inl (row_block_lt hx hlt))]
      exact ih (by omega) y' hlt x hx
    · have hy'y : y' = y := by omega
      rw [hy'y]
      rw [naiveRowIter_getD_in img w h y _ w
        (by rw [naiveRowsIter_length, List.length_replicate]) (by omega) le_rfl x hx]
      exact naiveCell_eq img w x y

theorem computeIntegralNaive_getD (img : List Nat) (w h : Nat) (buf : List Nat)
    {x y : Nat} (hx : x < w) (hy : y < h) :
    (computeIntegralNaive img w h buf).getD (y*w + x) 0 = rectSum img w x y % u64Mod := by
  have hwh : ¬(w = 0 ∨ h = 0) := by omega
  simp only [computeIntegralNaive, if_neg hwh]
  exact naiveRowsIter_getD img w h h le_rfl y hy x hx

theorem computeIntegralNaive_length (img : List Nat) (w h : Nat) (buf : List Nat)
    (hw : w ≠ 0) (hh : h ≠ 0) :
    (computeIntegralNaive img w h buf).length = w*h := by
  have hwh : ¬(w = 0 ∨ h = 0) := by omega
  simp only [computeIntegralNaive, if_neg hwh]
  rw [naiveRowsIter_length, List.length_replicate]

/-- Two `w × h` tables that agree on every cell are equal. -/
theorem table_ext {A B : List Nat} {w h : Nat} (hA : A.length = w*h) (hB : B.length = w*h)
    (hent : ∀ x, x < w → ∀ y, y < h → A.getD (y*w + x) 0 = B.getD (y*w + x) 0) : A = B := by
  apply ext_getD _ _ (hA.trans hB.symm)
  intro i hi
  rw [hA] at hi
  have hw : 0 < w := by
    rcases Nat.eq_zero_or_pos w with hz | hp
    · rw [hz, Nat.zero_mul] at hi; omega
    · exact hp
  have hxw : i % w < w := Nat.mod_lt _ hw
  have hyh : i / w < h := by
    rw [Nat.div_lt_iff_lt_mul hw]
    rwa [Nat.mul_comm] at hi
  have hdec : (i/w)*w + i%w = i := by
    rw [Nat.mul_comm]
    exact Nat.div_add_mod i w
  rw [← hdec]
  exact hent (i%w) hxw (i/w) hyh

/-! ## Characterisation of computeIntegralMulti, phase 1 -/

theorem multiRowIter_fst_length (img : List Nat) (w y : Nat) (rc : List Nat) (x : Nat) :
    ((multiRowIter img w y rc x).1).length = rc.length := by
  induction x with
  | zero => rfl
  | succ x ih => simp only [multiRowIter, multiRowStep, List.length_set]; exact ih

theorem multiRowIter_snd (img : List Nat) (w y : Nat) (rc : List Nat) (x : Nat) :
    (multiRowIter img w y rc x).2 = rowTo img w y x % u64Mod := by
  induction x with
  | zero => simp [multiRowIter, rowTo, sumBelow, u64Mod]
  | succ x ih =>
    simp only [multiRowIter, multiRowStep, ih]
    rw [Nat.mod_add_mod]
    rfl

theorem multiRowIter_getD_out (img : List Nat) (w y : Nat) (rc : List Nat) (x k : Nat)
    (hk : k < y*w ∨ y*w + x ≤ k) :
    ((multiRowIter img w y rc x).1).getD k 0 = rc.getD k 0 := by
  induction x with
  | zero => rfl
  | succ x ih =>
    simp only [multiRowIter, multiRowStep]
    rw [getD_set_ne _ _ _ _ (by omega)]
    exact ih (by omega)

theorem multiRowIter_getD_in (img : List Nat) (w h y : Nat) (rc : List Nat) (x : Nat)
    (hlen : rc.length = w*h) (hy : y < h) (hxw : x ≤ w) : ∀ x' < x,
    ((multiRowIter img w y rc x).1).getD (y*w + x') 0 = rowTo img w y (x'+1) % u64Mod := by
  induction x with
  | zero => intro x' hx'; omega
  | succ x ih =>
    intro x' hx'
    simp only [multiRowIter, multiRowStep]
    rcases Nat.lt_or_ge x' x with hlt | hge
    · rw [getD_set_ne _ _ _ _ (by omega)]
      exact ih (by omega) x' hlt
    · have hx'x : x' = x := by omega
      rw [hx'x]
      have hset : y*w + x < ((multiRowIter img w y rc x).1).length := by
        rw [multiRowIter_fst_length, hlen]
        exact idx_lt (by omega) hy
      rw [getD_set_eq _ _ _ hset, multiRowIter_snd, Nat.mod_add_mod]
      rfl

theorem multiRowsFrom_length (img : List Nat) (w y0 : Nat) (rc : List Nat) (k : Nat) :
    (multiRowsFrom img w y0 rc k).length = rc.length := by
  induction k with
  | zero => rfl
  | succ k ih => simp only [multiRowsFrom, multiRowIter_fst_length]; exact ih

theorem multiRowsFrom_getD_out (img : List Nat) (w y0 : Nat) (rc : List Nat) (k p : Nat)
    (hp : p < y0*w ∨ (y0+k)*w ≤ p) :
    (multiRowsFrom img w y0 rc k).getD p 0 = rc.getD p 0 := by
  induction k with
  | zero => rfl
  | succ k ih =>
    simp only [multiRowsFrom]
    have hs : (y0+(k+1))*w = (y0+k)*w + w := by rw [← Nat.add_assoc, Nat.succ_mul]
    have hm : y0*w ≤ (y0+k)*w := Nat.mul_le_mul_right w (by omega)
    rw [multiRowIter_getD_out _ _ _ _ _ _ (by omega)]
    exact ih (by omega)

theorem multiRowsFrom_getD_in (img : List Nat) (w h y0 : Nat) (rc : List Nat) (k : Nat)
    (hlen : rc.length = w*h) (hk : y0 + k ≤ h) : ∀ j < k, ∀ x < w,
    (multiRowsFrom img w y0 rc k).getD ((y0+j)*w + x) 0
      = rowTo img w (y0+j) (x+1) % u64Mod := by
  induction k with
  | zero => intro j hj; omega
  | succ k ih =>
    intro j hj x hx
    simp only [multiRowsFrom]
    rcases Nat.lt_or_ge j k with hlt | hge
    · rw [multiRowIter_getD_out _ _ _ _ _ _
        (Or.inl (row_block_lt hx (by omega)))]
      exact ih (by omega) j hlt x hx
    · have hjk : j = k := by omega
      rw [hjk]
      exact multiRowIter_getD_in img w h (y0+k) _ w
        (by rw [multiRowsFrom_length]; exact hlen) (by omega) le_rfl x hx

theorem phase1Tids_succ (img : List Nat) (w h nt : Nat) (rc : List Nat) (t : Nat) :
    phase1Tids img w h nt rc (t+1)
      = multiRowsFrom img w (t*((h + nt - 1)/nt)) (phase1Tids img w h nt rc t)
          (min h (t*((h + nt - 1)/nt) + (h + nt - 1)/nt) - t*((h + nt - 1)/nt)) := rfl

theorem phase1Tids_length (img : List Nat) (w h nt : Nat) (rc : List Nat) (t : Nat) :
    (phase1Tids img w h nt rc t).length = rc.length := by
  induction t with
  | zero => rfl
  | succ t ih => rw [phase1Tids_succ, multiRowsFrom_length]; exact ih

theorem phase1Tids_getD (img : List Nat) (w h nt : Nat) (rc : List Nat)
    (hlen : rc.length = w*h) (t : Nat) :
    ∀ y, y < h → y < t * ((h + nt - 1)/nt) → ∀ x, x < w →
    (phase1Tids img w h nt rc t).getD (y*w + x) 0 = rowTo img w y (x+1) % u64Mod := by
  induction t with
  | zero =>
    intro y _ h0 x _
    rw [Nat.zero_mul] at h0
    omega
  | succ t ih =>
    intro y hy hcov x hx
    rw [phase1Tids_succ]
    have hsucc : (t+1) * ((h + nt - 1)/nt) = t * ((h + nt - 1)/nt) + (h + nt - 1)/nt :=
      Nat.succ_mul _ _
    by_cases hcase : y < t * ((h + nt - 1)/nt)
    · rw [multiRowsFrom_getD_out _ _ _ _ _ _ (Or.inl (row_block_lt hx hcase))]
      exact ih y hy hcase x hx
    · have hj : t * ((h + nt - 1)/nt) + (y - t * ((h + nt - 1)/nt)) = y := by omega
      have hres := multiRowsFrom_getD_in img w h (t * ((h + nt - 1)/nt))
        (phase1Tids img w h nt rc t)
        (min h (t*((h + nt - 1)/nt) + (h + nt - 1)/nt) - t*((h + nt - 1)/nt))
        (by rw [phase1Tids_length]; exact hlen) (by omega)
        (y - t * ((h + nt - 1)/nt)) (by omega) x hx
      rw [hj] at hres
      exact hres

/-- The ceiling division of the partitioning covers everything:
`n ≤ nt * ((n + nt - 1) / nt)` for `nt ≥ 1`. -/
theorem ceil_covers (n nt : Nat) (hnt : 0 < nt) : n ≤ nt * ((n + nt - 1) / nt) := by
  have h1 : nt * ((n + nt - 1) / nt) + (n + nt - 1) % nt = n + nt - 1 :=
    Nat.div_add_mod _ _
  have h2 : (n + nt - 1) % nt < nt := Nat.mod_lt _ hnt
  omega

theorem phase1_getD (img : List Nat) (w h nt : Nat) (rc : List Nat)
    (hlen : rc.length = w*h) (hnt : 0 < nt) {x y : Nat} (hx : x < w) (hy : y < h) :
    (phase1Tids img w h nt rc nt).getD (y*w + x) 0 = rowTo img w y (x+1) % u64Mod := by
  have hcov : y < nt * ((h + nt - 1)/nt) := by
    have := ceil_covers h nt hnt
    omega
  exact phase1Tids_getD img w h nt rc hlen nt y hy hcov x hx

/-! ## Characterisation of computeIntegralMulti, phase 2 -/

theorem multiColIter_fst_length (rc : List Nat) (w x : Nat) (ig : List Nat) (k : Nat) :
    ((multiColIter rc w x ig k).1).length = ig.length := by
  induction k with
  | zero => rfl
  | succ k ih => simp only [multiColIter, multiColStep, List.length_set]; exact ih

theorem multiColIter_snd (rc : List Nat) (w x : Nat) (ig : List Nat) (k : Nat) :
    (multiColIter rc w x ig k).2
      = sumBelow (fun y => rc.getD (y*w + x) 0) k % u64Mod := by
  induction k with
  | zero => simp [multiColIter, sumBelow, u64Mod]
  | succ k ih =>
    simp only [multiColIter, multiColStep, ih]
    rw [Nat.mod_add_mod]
    rfl

theorem multiColIter_getD_out (rc : List Nat) (w x : Nat) (ig : List Nat) (k : Nat)
    (hx : x < w) {x' y' : Nat} (hx' : x' < w) (hne : x' ≠ x) :
    ((multiColIter rc w x ig k).1).getD (y'*w + x') 0 = ig.getD (y'*w + x') 0 := by
  induction k with
  | zero => rfl
  | succ k ih =>
    simp only [multiColIter, multiColStep]
    have hne2 : k*w + x ≠ y'*w + x' := by
      intro he
      exact hne ((idx_inj hx hx' he).2).symm
    rw [getD_set_ne _ _ _ _ hne2]
    exact ih

theorem multiColIter_getD_in (rc : List Nat) (w h x : Nat) (ig : List Nat) (k : Nat)
    (hlen : ig.length = w*h) (hx : x < w) (hk : k ≤ h) : ∀ y' < k,
    ((multiColIter rc w x ig k).1).getD (y'*w + x) 0
      = sumBelow (fun y => rc.getD (y*w + x) 0) (y'+1) % u64Mod := by
  induction k with
  | zero => intro y' hy'; omega
  | succ k ih =>
    intro y' hy'
    simp only [multiColIter, multiColStep]
    rcases Nat.lt_or_ge y' k with hlt | hge
    · have hne2 : k*w + x ≠ y'*w + x := by
        intro he
        have := (idx_inj hx hx he).1
        omega
      rw [getD_set_ne _ _ _ _ hne2]
      exact ih (by omega) y' hlt
    · have hy'k : y' = k := by omega
      rw [hy'k]
      have hset : k*w + x < ((multiColIter rc w x ig k).1).length := by
        rw [multiColIter_fst_length, hlen]
        exact idx_lt hx (by omega)
      rw [getD_set_eq _ _ _ hset, multiColIter_snd, Nat.mod_add_mod]
      rfl

theorem multiColsFrom_length (rc : List Nat) (w h x0 : Nat) (ig : List Nat) (k : Nat) :
    (multiColsFrom rc w h x0 ig k).length = ig.length := by
  induction k with
  | zero => rfl
  | succ k ih => simp only [multiColsFrom, multiColIter_fst_length]; exact ih

theorem multiColsFrom_getD_out (rc : List Nat) (w h x0 : Nat) (ig : List Nat) (k : Nat)
    (hx0k : x0 + k ≤ w ∨ k = 0) {x' y' : Nat} (hx' : x' < w)
    (hout : x' < x0 ∨ x0 + k ≤ x') :
    (multiColsFrom rc w h x0 ig k).getD (y'*w + x') 0 = ig.getD (y'*w + x') 0 := by
  induction k with
  | zero => rfl
  | succ k ih =>
    simp only [multiColsFrom]
    rw [multiColIter_getD_out _ _ _ _ _ (by omega) hx' (by omega)]
    exact ih (by omega) (by omega)

theorem multiColsFrom_getD_in (rc : List Nat) (w h x0 : Nat) (ig : List Nat) (k : Nat)
    (hlen : ig.length = w*h) (hx0k : x0 + k ≤ w) : ∀ j < k, ∀ y' < h,
    (multiColsFrom rc w h x0 ig k).getD (y'*w + (x0+j)) 0
      = sumBelow (fun y => rc.getD (y*w + (x0+j)) 0) (y'+1) % u64Mod := by
  induction k with
  | zero => intro j hj; omega
  | succ k ih =>
    intro j hj y' hy'
    simp only [multiColsFrom]
    rcases Nat.lt_or_ge j k with hlt | hge
    · rw [multiColIter_getD_out _ _ _ _ _ (by omega) (by omega) (by omega)]
      exact ih (by omega) j hlt y' hy'
    · have hjk : j = k := by omega
      rw [hjk]
      exact multiColIter_getD_in rc w h (x0+k) _ h
        (by rw [multiColsFrom_length]; exact hlen) (by omega) le_rfl y' hy'

theorem phase2Tids_succ (rc : List Nat) (w h nt : Nat) (ig : List Nat) (t : Nat) :
    phase2Tids rc w h nt ig (t+1)
      = multiColsFrom rc w h (t*((w + nt - 1)/nt)) (phase2Tids rc w h nt ig t)
          (min w (t*((w + nt - 1)/nt) + (w + nt - 1)/nt) - t*((w + nt - 1)/nt)) := rfl

theorem phase2Tids_length (rc : List Nat) (w h nt : Nat) (ig : List Nat) (t : Nat) :
    (phase2Tids rc w h nt ig t).length = ig.length := by
  induction t with
  | zero => rfl
  | succ t ih => rw [phase2Tids_succ, multiColsFrom_length]; exact ih

theorem phase2Tids_getD (rc : List Nat) (w h nt : Nat) (ig : List Nat)
    (hlen : ig.length = w*h) (t : Nat) :
    ∀ x, x < w → x < t * ((w + nt - 1)/nt) → ∀ y, y < h →
    (phase2Tids rc w h nt ig t).getD (y*w + x) 0
      = sumBelow (fun y2 => rc.getD (y2*w + x) 0) (y+1) % u64Mod := by
  induction t with
  | zero =>
    intro x _ h0 y _
    rw [Nat.zero_mul] at h0
    omega
  | succ t ih =>
    intro x hx hcov y hy
    rw [phase2Tids_succ]
    have hsucc : (t+1) * ((w + nt - 1)/nt) = t * ((w + nt - 1)/nt) + (w + nt - 1)/nt :=
      Nat.succ_mul _ _
    have hminw : min w (t*((w + nt - 1)/nt) + (w + nt - 1)/nt) ≤ w := Nat.min_le_left _ _
    by_cases hcase : x < t * ((w + nt - 1)/nt)
    · rw [multiColsFrom_getD_out _ _ _ _ _ _ (by omega) hx (Or.inl hcase)]
      exact ih x hx hcase y hy
    · have hj : t * ((w + nt - 1)/nt) + (x - t * ((w + nt - 1)/nt)) = x := by omega
      have hres := multiColsFrom_getD_in rc w h (t * ((w + nt - 1)/nt))
        (phase2Tids rc w h nt ig t)
        (min w (t*((w + nt - 1)/nt) + (w + nt - 1)/nt) - t*((w + nt - 1)/nt))
        (by rw [phase2Tids_length]; exact hlen) (by omega)
        (x - t * ((w + nt - 1)/nt)) (by omega) y hy
      rw [hj] at hres
      exact hres

theorem phase2_getD (rc : List Nat) (w h nt : Nat) (ig : List Nat)
    (hlen : ig.length = w*h) (hnt : 0 < nt) {x y : Nat} (hx : x < w) (hy : y < h) :
    (phase2Tids rc w h nt ig nt).getD (y*w + x) 0
      = sumBelow (fun y2 => rc.getD (y2*w + x) 0) (y+1) % u64Mod := by
  have hcov : x < nt * ((w + nt - 1)/nt) := by
    have := ceil_covers w nt hnt
    omega
  exact phase2Tids_getD rc w h nt ig hlen nt x hx hcov y hy

/-! ## computeIntegralMulti: entries and length -/

theorem clampThreads_pos (num_threads : Int) : 0 < clampThreads num_threads := by
  unfold clampThreads
  split <;> omega

theorem computeIntegralMulti_getD (img : List Nat) (w h : Nat) (buf : List Nat)
    (num_threads : Int) {x y : Nat} (hx : x < w) (hy : y < h) :
    (computeIntegralMulti img w h buf num_threads).getD (y*w + x) 0
      = rectSum img w x y % u64Mod := by
  have hwh : ¬(w = 0 ∨ h = 0) := by omega
  simp only [computeIntegralMulti, if_neg hwh]
  rw [phase2_getD _ _ _ _ _ (by rw [List.length_replicate]) (clampThreads_pos _) hx hy]
  have hcongr : sumBelow (fun y2 =>
      (phase1Tids img w h (clampThreads num_threads) (List.replicate (w*h) 0)
        (clampThreads num_threads)).getD (y2*w + x) 0) (y+1)
      = sumBelow (fun y2 => rowTo img w y2 (x+1) % u64Mod) (y+1) := by
    apply sumBelow_congr
    intro y2 hy2
    exact phase1_getD img w h (clampThreads num_threads) _
      (by rw [List.length_replicate]) (clampThreads_pos _) hx (by omega)
  rw [hcongr, sumBelow_mod]
  rfl

theorem computeIntegralMulti_length (img : List Nat) (w h : Nat) (buf : List Nat)
    (num_threads : Int) (hw : w ≠ 0) (hh : h ≠ 0) :
    (computeIntegralMulti img w h buf num_threads).length = w*h := by
  have hwh : ¬(w = 0 ∨ h = 0) := by omega
  simp only [computeIntegralMulti, if_neg hwh]
  rw [phase2Tids_length, List.length_replicate]

/-! ## Cross-builder equality -/

theorem multi_eq_single_core (img : List Nat) (w h : Nat) (b1 b2 : List Nat)
    (num_threads : Int) :
    computeIntegralMulti img w h b1 num_threads = computeIntegralSingle img w h b2 := by
  by_cases hwh : w = 0 ∨ h = 0
  · simp only [computeIntegralMulti, computeIntegralSingle, if_pos hwh]
  · have hw : w ≠ 0 := by omega
    have hh : h ≠ 0 := by omega
    apply table_ext (computeIntegralMulti_length img w h b1 num_threads hw hh)
      (computeIntegralSingle_length img w h b2 hw hh)
    intro x hx y hy
    rw [computeIntegralMulti_getD img w h b1 num_threads hx hy,
      computeIntegralSingle_getD img w h b2 hx hy]

theorem naive_eq_single_core (img : List Nat) (w h : Nat) (b1 b2 : List Nat) :
    computeIntegralNaive img w h b1 = computeIntegralSingle img w h b2 := by
  by_cases hwh : w = 0 ∨ h = 0
  · simp only [computeIntegralNaive, computeIntegralSingle, if_pos hwh]
  · have hw : w ≠ 0 := by omega
    have hh : h ≠ 0 := by omega
    apply table_ext (computeIntegralNaive_length img w h b1 hw hh)
      (computeIntegralSingle_length img w h b2 hw hh)
    intro x hx y hy
    rw [computeIntegralNaive_getD img w h b1 hx hy,
      computeIntegralSingle_getD img w h b2 hx hy]

/-! ## Exact arithmetic: bounds on the rectangle sums -/

theorem rowTo_mono (img : List Nat) (w y : Nat) {x x' : Nat} (h : x ≤ x') :
    rowTo img w y x ≤ rowTo img w y x' :=
  sumBelow_le_of_le _ h

theorem exRect_mono_x (img : List Nat) (w : Nat) {x x' : Nat} (h : x ≤ x') (y : Nat) :
    exRect img w x y ≤ exRect img w x' y :=
  sumBelow_mono_fun (fun j _ => rowTo_mono img w j h)

theorem exRect_mono_y (img : List Nat) (w x : Nat) {y y' : Nat} (h : y ≤ y') :
    exRect img w x y ≤ exRect img w x y' :=
  sumBelow_le_of_le _ h

theorem exRect_eq_linear (img : List Nat) (w h : Nat) :
    exRect img w w h = sumBelow (fun k => img.getD k 0) (h*w) := by
  induction h with
  | zero => rw [Nat.zero_mul]; rfl
  | succ h ih =>
    have h1 : exRect img w w (h+1) = exRect img w w h + rowTo img w h w := rfl
    rw [h1, ih, Nat.succ_mul, sumBelow_add_split]
    rfl

/-- The whole-grid rectangle sum is the sum of the samples. -/
theorem exRect_full (img : List Nat) (w h : Nat) (hlen : img.length = w*h) :
    exRect img w w h = img.sum := by
  rw [exRect_eq_linear, Nat.mul_comm h w, ← hlen, sumBelow_getD_length]

theorem rectSum_le_sum (img : List Nat) (w h : Nat) (hlen : img.length = w*h)
    {x y : Nat} (hx : x < w) (hy : y < h) : rectSum img w x y ≤ img.sum := by
  calc rectSum img w x y = exRect img w (x+1) (y+1) := rfl
  _ ≤ exRect img w w (y+1) := exRect_mono_x img w (by omega) (y+1)
  _ ≤ exRect img w w h := exRect_mono_y img w w (by omega)
  _ = img.sum := exRect_full img w h hlen

/-- With no wraparound the sequential table holds the exact sums. -/
theorem single_entry_exact (img : List Nat) (w h : Nat) (buf : List Nat)
    (hlen : img.length = w*h) (hsum : img.sum < u64Mod) {x y : Nat}
    (hx : x < w) (hy : y < h) :
    (computeIntegralSingle img w h buf).getD (y*w + x) 0 = rectSum img w x y := by
  rw [computeIntegralSingle_getD img w h buf hx hy]
  exact Nat.mod_eq_of_lt (Nat.lt_of_le_of_lt (rectSum_le_sum img w h hlen hx hy) hsum)

/-- A grid of at most `2^32` u32 samples cannot overflow a u64 accumulator. -/
theorem sum_lt_u64Mod_of_u32 (img : List Nat) (w h : Nat) (hlen : img.length = w*h)
    (hval : ∀ v ∈ img, v < 4294967296) (hwh : w*h ≤ 4294967296) :
    img.sum < u64Mod := by
  have h1 : img.sum ≤ img.length * 4294967295 := by
    have h2 := List.sum_le_card_nsmul img 4294967295 (fun x hx => by
      have := hval x hx
      omega)
    simpa using h2
  rw [hlen] at h1
  have h3 : w*h*4294967295 ≤ 4294967296 * 4294967295 :=
    Nat.mul_le_mul_right _ hwh
  simp only [u64Mod]
  omega

/-! ## Monotonicity of the exact rectangle sums -/

theorem rectSum_mono_x (img : List Nat) (w : Nat) {x x' : Nat} (h : x ≤ x') (y : Nat) :
    rectSum img w x y ≤ rectSum img w x' y :=
  exRect_mono_x img w (by omega) (y+1)

theorem rectSum_mono_y (img : List Nat) (w x : Nat) {y y' : Nat} (h : y ≤ y') :
    rectSum img w x y ≤ rectSum img w x y' :=
  exRect_mono_y img w (x+1) (by omega)

/-! ## Replicated single-column grids (used to exhibit u64 wraparound) -/

theorem rectSum_replicate_col (n v y : Nat) (hy : y < n) :
    rectSum (List.replicate n v) 1 0 y = (y+1) * v := by
  have h1 : ∀ j, j < y+1 → rowTo (List.replicate n v) 1 j 1
      = (List.replicate n v).getD j 0 := by
    intro j hj
    simp [rowTo, sumBelow]
  calc rectSum (List.replicate n v) 1 0 y
      = sumBelow (fun j => (List.replicate n v).getD j 0) (y+1) := sumBelow_congr h1
  _ = (y+1)*v := sumBelow_replicate n v (by omega)

theorem rectBox_origin (img : List Nat) (w x1 y1 : Nat) :
    rectBox img w 0 0 x1 y1 = rectSum img w x1 y1 := by
  unfold rectBox rectSum exRect rowTo
  simp only [Nat.zero_add, Nat.add_zero, Nat.sub_zero]

/-! ## Inclusion-exclusion identity for the rectangle query -/

theorem exRect_zero_x (img : List Nat) (w y : Nat) : exRect img w 0 y = 0 := by
  have h1 : exRect img w 0 y = sumBelow (fun _ => 0) y :=
    sumBelow_congr (fun j _ => rfl)
  rw [h1, sumBelow_zero_fun]

theorem exRect_incl_excl (img : List Nat) (w x0 y0 m k : Nat) :
    exRect img w (x0+m) (y0+k) + exRect img w x0 y0
      = exRect img w (x0+m) y0 + exRect img w x0 (y0+k)
        + sumBelow (fun j => sumBelow (fun i => img.getD ((y0+j)*w + (x0+i)) 0) m) k := by
  have e1 : exRect img w (x0+m) (y0+k)
      = exRect img w (x0+m) y0 + sumBelow (fun j => rowTo img w (y0+j) (x0+m)) k :=
    sumBelow_add_split _ y0 k
  have e2 : exRect img w x0 (y0+k)
      = exRect img w x0 y0 + sumBelow (fun j => rowTo img w (y0+j) x0) k :=
    sumBelow_add_split _ y0 k
  have e3 : sumBelow (fun j => rowTo img w (y0+j) (x0+m)) k
      = sumBelow (fun j => rowTo img w (y0+j) x0) k
        + sumBelow (fun j => sumBelow (fun i => img.getD ((y0+j)*w + (x0+i)) 0) m) k := by
    rw [← sumBelow_add_distrib]
    apply sumBelow_congr
    intro j _
    exact sumBelow_add_split _ x0 m
  omega

/-- The rectangle query on an exact sequential table returns the exact
rectangle sum, despite the intermediate u64 wraparound of `A - B - C + D`. -/
theorem rectangleSum_exact (img : List Nat) (w h : Nat) (buf : List Nat)
    (hlen : img.length = w*h) (hsum : img.sum < u64Mod)
    {x0 y0 x1 y1 : Nat} (hx01 : x0 ≤ x1) (hx1 : x1 < w) (hy01 : y0 ≤ y1) (hy1 : y1 < h) :
    rectangleSum (computeIntegralSingle img w h buf) w x0 y0 x1 y1
      = rectBox img w x0 y0 x1 y1 := by
  have hA : (computeIntegralSingle img w h buf).getD (y1*w + x1) 0
      = exRect img w (x1+1) (y1+1) :=
    single_entry_exact img w h buf hlen hsum hx1 hy1
  have hB : (if 0 < y0 then (computeIntegralSingle img w h buf).getD ((y0-1)*w + x1) 0 else 0)
      = exRect img w (x1+1) y0 := by
    by_cases hy0 : 0 < y0
    · rw [if_pos hy0, single_entry_exact img w h buf hlen hsum hx1 (by omega)]
      have he : y0 - 1 + 1 = y0 := by omega
      calc rectSum img w x1 (y0-1) = exRect img w (x1+1) (y0-1+1) := rfl
      _ = exRect img w (x1+1) y0 := by rw [he]
    · rw [if_neg hy0]
      have he : y0 = 0 := by omega
      rw [he]
      rfl
  have hC : (if 0 < x0 then (computeIntegralSingle img w h buf).getD (y1*w + (x0-1)) 0 else 0)
      = exRect img w x0 (y1+1) := by
    by_cases hx0 : 0 < x0
    · rw [if_pos hx0, single_entry_exact img w h buf hlen hsum (by omega) hy1]
      have he : x0 - 1 + 1 = x0 := by omega
      calc rectSum img w (x0-1) y1 = exRect img w (x0-1+1) (y1+1) := rfl
      _ = exRect img w x0 (y1+1) := by rw [he]
    · rw [if_neg hx0]
      have he : x0 = 0 := by omega
      rw [he, exRect_zero_x]
  have hD : (if 0 < x0 ∧ 0 < y0 then
        (computeIntegralSingle img w h buf).getD ((y0-1)*w + (x0-1)) 0 else 0)
      = exRect img w x0 y0 := by
    by_cases hxy0 : 0 < x0 ∧ 0 < y0
    · rw [if_pos hxy0, single_entry_exact img w h buf hlen hsum (by omega) (by omega)]
      have hex : x0 - 1 + 1 = x0 := by omega
      have hey : y0 - 1 + 1 = y0 := by omega
      calc rectSum img w (x0-1) (y0-1) = exRect img w (x0-1+1) (y0-1+1) := rfl
      _ = exRect img w x0 y0 := by rw [hex, hey]
    · rw [if_neg hxy0]
      rcases Decidable.not_and_iff_or_not.mp hxy0 with hx0 | hy0
      · have he : x0 = 0 := by omega
        rw [he, exRect_zero_x]
      · have he : y0 = 0 := by omega
        rw [he]
        rfl
  have hm : x0 + (x1+1-x0) = x1+1 := by omega
  have hk : y0 + (y1+1-y0) = y1+1 := by omega
  have hid := exRect_incl_excl img w x0 y0 (x1+1-x0) (y1+1-y0)
  rw [hm, hk] at hid
  have hbox : rectBox img w x0 y0 x1 y1
      = sumBelow (fun j => sumBelow (fun i => img.getD ((y0+j)*w + (x0+i)) 0) (x1+1-x0))
          (y1+1-y0) := rfl
  have hAle : exRect img w (x1+1) (y1+1) < u64Mod := by
    have h1 : rectSum img w x1 y1 = exRect img w (x1+1) (y1+1) := rfl
    have h2 := rectSum_le_sum img w h hlen hx1 hy1
    omega
  have hBle : exRect img w (x1+1) y0 ≤ exRect img w (x1+1) (y1+1) :=
    exRect_mono_y img w (x1+1) (by omega)
  have hCle : exRect img w x0 (y1+1) ≤ exRect img w (x1+1) (y1+1) :=
    exRect_mono_x img w (by omega) (y1+1)
  have hDle : exRect img w x0 y0 ≤ exRect img w x0 (y1+1) :=
    exRect_mono_y img w x0 (by omega)
  simp only [rectangleSum, hA, hB, hC, hD, sub64, hbox, u64Mod] at *
  omega

/-! ## equalIntegral and the main cross-check -/

theorem equalIntegral_iff (a b : List Nat) :
    equalIntegral a b = true
      ↔ (a.length = b.length ∧ ∀ i, i < a.length → a.getD i 0 = b.getD i 0) := by
  unfold equalIntegral
  by_cases hl : a.length = b.length
  · rw [if_neg (by simp [hl])]
    rw [List.all_eq_true]
    constructor
    · intro hall
      refine ⟨hl, fun i hi => ?_⟩
      have h2 := hall i (List.mem_range.mpr hi)
      simpa using h2
    · rintro ⟨h1, hent⟩ i hi
      simpa using hent i (List.mem_range.mp hi)
  · rw [if_pos (by simpa using hl)]
    simp only [Bool.false_eq_true, false_iff]
    rintro ⟨h1, h2⟩
    exact hl h1

theorem mainCrossCheck_of_ne (a b : List Nat) (h : equalIntegral a b = false) :
    mainCrossCheck a b = some 2 := by
  simp [mainCrossCheck, h]

/-! ## Bounds-checked (Option-returning) variants of the three builders

Same code as the embeddings above, but every element access `buf[i]` (read or
write) is bounds-checked: a read uses `l[i]?` and a write uses `setChecked`;
`none` is the out-of-bounds branch, which the C++ `std::vector::operator[]`
would reach as undefined behaviour. -/

/-- Bounds-checked write `l[i] = v`. -/
def setChecked (l : List Nat) (i v : Nat) : Option (List Nat) :=
  if i < l.length then some (l.set i v) else none

def singleRowStepC (img : List Nat) (w y x : Nat) (st : List Nat × Nat) :
    Option (List Nat × Nat) :=
  match img[y*w + x]? with
  | none => none
  | some v =>
    let row_sum := (st.2 + v) % u64Mod
    match (if 0 < y then st.1[(y-1)*w + x]? else some 0) with
    | none => none
    | some above =>
      match setChecked st.1 (y*w + x) ((row_sum + above) % u64Mod) with
      | none => none
      | some ig => some (ig, row_sum)

def singleRowIterC (img : List Nat) (w y : Nat) (integral : List Nat) :
    Nat → Option (List Nat × Nat)
  | 0 => some (integral, 0)
  | x+1 => match singleRowIterC img w y integral x with
    | none => none
    | some st => singleRowStepC img w y x st

def singleRowsIterC (img : List Nat) (w : Nat) (integral : List Nat) :
    Nat → Option (List Nat)
  | 0 => some integral
  | y+1 => match singleRowsIterC img w integral y with
    | none => none
    | some ig => match singleRowIterC img w y ig w with
      | none => none
      | some st => some st.1

def computeIntegralSingleC (img : List Nat) (w h : Nat) : Option (List Nat) :=
  if w = 0 ∨ h = 0 then some []
  else singleRowsIterC img w (List.replicate (w*h) 0) h

def multiRowStepC (img : List Nat) (w y x : Nat) (st : List Nat × Nat) :
    Option (List Nat × Nat) :=
  match img[y*w + x]? with
  | none => none
  | some v =>
    let s := (st.2 + v) % u64Mod
    match setChecked st.1 (y*w + x) s with
    | none => none
    | some rc => some (rc, s)

def multiRowIterC (img : List Nat) (w y : Nat) (rowCum : List Nat) :
    Nat → Option (List Nat × Nat)
  | 0 => some (rowCum, 0)
  | x+1 => match multiRowIterC img w y rowCum x with
    | none => none
    | some st => multiRowStepC img w y x st

def multiRowsFromC (img : List Nat) (w y0 : Nat) (rowCum : List Nat) :
    Nat → Option (List Nat)
  | 0 => some rowCum
  | k+1 => match multiRowsFromC img w y0 rowCum k with
    | none => none
    | some rc => match multiRowIterC img w (y0+k) rc w with
      | none => none
      | some st => some st.1

def phase1TidsC (img : List Nat) (w h nt : Nat) (rowCum : List Nat) :
    Nat → Option (List Nat)
  | 0 => some rowCum
  | t+1 => match phase1TidsC img w h nt rowCum t with
    | none => none
    | some rc =>
      let rows_per := (h + nt - 1) / nt
      let y0 := t * rows_per
      let y1 := min h (y0 + rows_per)
      multiRowsFromC img w y0 rc (y1 - y0)

def multiColStepC (rowCum : List Nat) (w x y : Nat) (st : List Nat × Nat) :
    Option (List Nat × Nat) :=
  match rowCum[y*w + x]? with
  | none => none
  | some v =>
    let s := (st.2 + v) % u64Mod
    match setChecked st.1 (y*w + x) s with
    | none => none
    | some ig => some (ig, s)

def multiColIterC (rowCum : List Nat) (w x : Nat) (integral : List Nat) :
    Nat → Option (List Nat × Nat)
  | 0 => some (integral, 0)
  | y+1 => match multiColIterC rowCum w x integral y with
    | none => none
    | some st => multiColStepC rowCum w x y st

def multiColsFromC (rowCum : List Nat) (w h x0 : Nat) (integral : List Nat) :
    Nat → Option (List Nat)
  | 0 => some integral
  | k+1 => match multiColsFromC rowCum w h x0 integral k with
    | none => none
    | some ig => match multiColIterC rowCum w (x0+k) ig h with
      | none => none
      | some st => some st.1

def phase2TidsC (rowCum : List Nat) (w h nt : Nat) (integral : List Nat) :
    Nat → Option (List Nat)
  | 0 => some integral
  | t+1 => match phase2TidsC rowCum w h nt integral t with
    | none => none
    | some ig =>
      let cols_per := (w + nt - 1) / nt
      let x0 := t * cols_per
      let x1 := min w (x0 + cols_per)
      multiColsFromC rowCum w h x0 ig (x1 - x0)

def computeIntegralMultiC (img : List Nat) (w h : Nat) (num_threads : Int) :
    Option (List Nat) :=
  if w = 0 ∨ h = 0 then some [] else
  let nt := clampThreads num_threads
  match phase1TidsC img w h nt (List.replicate (w*h) 0) nt with
  | none => none
  | some rowCum => phase2TidsC rowCum w h nt (List.replicate (w*h) 0) nt

def naiveLoopJC (img : List Nat) (w i s : Nat) : Nat → Option Nat
  | 0 => some s
  | j+1 => match naiveLoopJC img w i s j with
    | none => none
    | some acc => match img[j*w + i]? with
      | none => none
      | some v => some ((acc + v) % u64Mod)

def naiveLoopIC (img : List Nat) (w y : Nat) : Nat → Option Nat
  | 0 => some 0
  | i+1 => match naiveLoopIC img w y i with
    | none => none
    | some s => naiveLoopJC img w i s (y+1)

def naiveRowIterC (img : List Nat) (w y : Nat) (integral : List Nat) :
    Nat → Option (List Nat)
  | 0 => some integral
  | x+1 => match naiveRowIterC img w y integral x with
    | none => none
    | some ig => match naiveLoopIC img w y (x+1) with
      | none => none
      | some s => setChecked ig (y*w + x) s

def naiveRowsIterC (img : List Nat) (w : Nat) (integral : List Nat) :
    Nat → Option (List Nat)
  | 0 => some integral
  | y+1 => match naiveRowsIterC img w integral y with
    | none => none
    | some ig => naiveRowIterC img w y ig w

def computeIntegralNaiveC (img : List Nat) (w h : Nat) : Option (List Nat) :=
  if w = 0 ∨ h = 0 then some []
  else naiveRowsIterC img w (List.replicate (w*h) 0) h

/-! ## The checked builders never reach the out-of-bounds branch -/

theorem get?_getD (l : List Nat) (i : Nat) (h : i < l.length) :
    l[i]? = some (l.getD i 0) := by
  rw [List.getElem?_eq_getElem h, List.getD_eq_getElem _ _ h]

theorem singleRowStepC_eq (img : List Nat) (w y x : Nat) (st : List Nat × Nat)
    (himg : y*w + x < img.length) (habove : 0 < y → (y-1)*w + x < st.1.length)
    (hset : y*w + x < st.1.length) :
    singleRowStepC img w y x st = some (singleRowStep img w y x st) := by
  by_cases hy : 0 < y
  · simp only [singleRowStepC, singleRowStep, setChecked, get?_getD _ _ himg,
      if_pos hy, get?_getD _ _ (habove hy), if_pos hset]
  · simp only [singleRowStepC, singleRowStep, setChecked, get?_getD _ _ himg,
      if_neg hy, if_pos hset]

theorem singleRowIterC_eq (img : List Nat) (w h y : Nat) (ig : List Nat) (x : Nat)
    (hlen : ig.length = w*h) (himg : w*h ≤ img.length) (hy : y < h) (hxw : x ≤ w) :
    singleRowIterC img w y ig x = some (singleRowIter img w y ig x) := by
  induction x with
  | zero => rfl
  | succ x ih =>
    simp only [singleRowIterC, ih (by omega)]
    apply singleRowStepC_eq
    · exact Nat.lt_of_lt_of_le (idx_lt (by omega) hy) himg
    · intro hy0
      rw [singleRowIter_fst_length, hlen]
      exact idx_lt (by omega) (by omega)
    · rw [singleRowIter_fst_length, hlen]
      exact idx_lt (by omega) hy

theorem singleRowsIterC_eq (img : List Nat) (w h : Nat) (y : Nat)
    (himg : w*h ≤ img.length) (hy : y ≤ h) :
    singleRowsIterC img w (List.replicate (w*h) 0) y
      = some (singleRowsIter img w (List.replicate (w*h) 0) y) := by
  induction y with
  | zero => rfl
  | succ y ih =>
    simp only [singleRowsIterC, ih (by omega)]
    rw [singleRowIterC_eq img w h y _ w
      (by rw [singleRowsIter_length, List.length_replicate]) himg (by omega) le_rfl]
    rfl

theorem computeIntegralSingleC_eq (img : List Nat) (w h : Nat) (buf : List Nat)
    (himg : w*h ≤ img.length) :
    computeIntegralSingleC img w h = some (computeIntegralSingle img w h buf) := by
  by_cases hwh : w = 0 ∨ h = 0
  · simp only [computeIntegralSingleC, computeIntegralSingle, if_pos hwh]
  · simp only [computeIntegralSingleC, computeIntegralSingle, if_neg hwh]
    exact singleRowsIterC_eq img w h h himg le_rfl

theorem multiRowStepC_eq (img : List Nat) (w y x : Nat) (st : List Nat × Nat)
    (himg : y*w + x < img.length) (hset : y*w + x < st.1.length) :
    multiRowStepC img w y x st = some (multiRowStep img w y x st) := by
  simp only [multiRowStepC, multiRowStep, setChecked, get?_getD _ _ himg, if_pos hset]

theorem multiRowIterC_eq (img : List Nat) (w h y : Nat) (rc : List Nat) (x : Nat)
    (hlen : rc.length = w*h) (himg : w*h ≤ img.length) (hy : y < h) (hxw : x ≤ w) :
    multiRowIterC img w y rc x = some (multiRowIter img w y rc x) := by
  induction x with
  | zero => rfl
  | succ x ih =>
    simp only [multiRowIterC, ih (by omega)]
    apply multiRowStepC_eq
    · exact Nat.lt_of_lt_of_le (idx_lt (by omega) hy) himg
    · rw [multiRowIter_fst_length, hlen]
      exact idx_lt (by omega) hy

theorem multiRowsFromC_eq (img : List Nat) (w h y0 : Nat) (rc : List Nat) (k : Nat)
    (hlen : rc.length = w*h) (himg : w*h ≤ img.length) (hk : y0 + k ≤ h ∨ k = 0) :
    multiRowsFromC img w y0 rc k = some (multiRowsFrom img w y0 rc k) := by
  induction k with
  | zero => rfl
  | succ k ih =>
    simp only [multiRowsFromC, ih (by omega)]
    rw [multiRowIterC_eq img w h (y0+k) _ w
      (by rw [multiRowsFrom_length]; exact hlen) himg (by omega) le_rfl]
    rfl

theorem phase1TidsC_eq (img : List Nat) (w h nt : Nat) (rc : List Nat) (t : Nat)
    (hlen : rc.length = w*h) (himg : w*h ≤ img.length) :
    phase1TidsC img w h nt rc t = some (phase1Tids img w h nt rc t) := by
  induction t with
  | zero => rfl
  | succ t ih =>
    simp only [phase1TidsC, ih]
    have hminh : min h (t*((h + nt - 1)/nt) + (h + nt - 1)/nt) ≤ h := Nat.min_le_left _ _
    rw [multiRowsFromC_eq img w h (t*((h + nt - 1)/nt)) _
      (min h (t*((h + nt - 1)/nt) + (h + nt - 1)/nt) - t*((h + nt - 1)/nt))
      (by rw [phase1Tids_length]; exact hlen) himg (by omega)]
    rfl

theorem multiColStepC_eq (rc : List Nat) (w x y : Nat) (st : List Nat × Nat)
    (hrc : y*w + x < rc.length) (hset : y*w + x < st.1.length) :
    multiColStepC rc w x y st = some (multiColStep rc w x y st) := by
  simp only [multiColStepC, multiColStep, setChecked, get?_getD _ _ hrc, if_pos hset]

theorem multiColIterC_eq (rc : List Nat) (w h x : Nat) (ig : List Nat) (k : Nat)
    (hig : ig.length = w*h) (hrc : w*h ≤ rc.length) (hx : x < w) (hk : k ≤ h) :
    multiColIterC rc w x ig k = some (multiColIter rc w x ig k) := by
  induction k with
  | zero => rfl
  | succ k ih =>
    simp only [multiColIterC, ih (by omega)]
    apply multiColStepC_eq
    · exact Nat.lt_of_lt_of_le (idx_lt hx (by omega)) hrc
    · rw [multiColIter_fst_length, hig]
      exact idx_lt hx (by omega)

theorem multiColsFromC_eq (rc : List Nat) (w h x0 : Nat) (ig : List Nat) (k : Nat)
    (hig : ig.length = w*h) (hrc : w*h ≤ rc.length) (hk : x0 + k ≤ w ∨ k = 0) :
    multiColsFromC rc w h x0 ig k = some (multiColsFrom rc w h x0 ig k) := by
  induction k with
  | zero => rfl
  | succ k ih =>
    simp only [multiColsFromC, ih (by omega)]
    rw [multiColIterC_eq rc w h (x0+k) _ h
      (by rw [multiColsFrom_length]; exact hig) hrc (by omega) le_rfl]
    rfl

theorem phase2TidsC_eq (rc : List Nat) (w h nt : Nat) (ig : List Nat) (t : Nat)
    (hig : ig.length = w*h) (hrc : w*h ≤ rc.length) :
    phase2TidsC rc w h nt ig t = some (phase2Tids rc w h nt ig t) := by
  induction t with
  | zero => rfl
  | succ t ih =>
    simp only [phase2TidsC, ih]
    have hminw : min w (t*((w + nt - 1)/nt) + (w + nt - 1)/nt) ≤ w := Nat.min_le_left _ _
    rw [multiColsFromC_eq rc w h (t*((w + nt - 1)/nt)) _
      (min w (t*((w + nt - 1)/nt) + (w + nt - 1)/nt) - t*((w + nt - 1)/nt))
      (by rw [phase2Tids_length]; exact hig) hrc (by omega)]
    rfl

theorem computeIntegralMultiC_eq (img : List Nat) (w h : Nat) (buf : List Nat)
    (num_threads : Int) (himg : w*h ≤ img.length) :
    computeIntegralMultiC img w h num_threads
      = some (computeIntegralMulti img w h buf num_threads) := by
  by_cases hwh : w = 0 ∨ h = 0
  · simp only [computeIntegralMultiC, computeIntegralMulti, if_pos hwh]
  · simp only [computeIntegralMultiC, computeIntegralMulti, if_neg hwh]
    have hrc : (phase1Tids img w h (clampThreads num_threads)
        (List.replicate (w*h) 0) (clampThreads num_threads)).length = w*h := by
      rw [phase1Tids_length, List.length_replicate]
    rw [phase1TidsC_eq img w h (clampThreads num_threads) _ (clampThreads num_threads)
      (by rw [List.length_replicate]) himg]
    exact phase2TidsC_eq
      (phase1Tids img w h (clampThreads num_threads) (List.replicate (w*h) 0)
        (clampThreads num_threads))
      w h (clampThreads num_threads) (List.replicate (w*h) 0) (clampThreads num_threads)
      (by rw [List.length_replicate]) (by omega)

theorem naiveLoopJC_eq (img : List Nat) (w h i s : Nat) (cnt : Nat)
    (himg : w*h ≤ img.length) (hi : i < w) (hcnt : cnt ≤ h) :
    naiveLoopJC img w i s cnt = some (naiveLoopJ img w i s cnt) := by
  induction cnt with
  | zero => rfl
  | succ c ih =>
    simp only [naiveLoopJC, ih (by omega)]
    rw [get?_getD _ _ (Nat.lt_of_lt_of_le (idx_lt hi (by omega)) himg)]
    rfl

theorem naiveLoopIC_eq (img : List Nat) (w h y : Nat) (cnt : Nat)
    (himg : w*h ≤ img.length) (hy : y < h) (hcnt : cnt ≤ w) :
    naiveLoopIC img w y cnt = some (naiveLoopI img w y cnt) := by
  induction cnt with
  | zero => rfl
  | succ i ih =>
    simp only [naiveLoopIC, ih (by omega)]
    exact naiveLoopJC_eq img w h i _ (y+1) himg (by omega) (by omega)

theorem naiveRowIterC_eq (img : List Nat) (w h y : Nat) (ig : List Nat) (x : Nat)
    (hig : ig.length = w*h) (himg : w*h ≤ img.length) (hy : y < h) (hxw : x ≤ w) :
    naiveRowIterC img w y ig x = some (naiveRowIter img w y ig x) := by
  induction x with
  | zero => rfl
  | succ x ih =>
    simp only [naiveRowIterC, ih (by omega)]
    rw [naiveLoopIC_eq img w h y (x+1) himg hy (by omega)]
    simp only [setChecked, naiveRowIter_length, hig,
      if_pos (idx_lt (by omega : x < w) hy)]
    rfl

theorem naiveRowsIterC_eq (img : List Nat) (w h : Nat) (y : Nat)
    (himg : w*h ≤ img.length) (hy : y ≤ h) :
    naiveRowsIterC img w (List.replicate (w*h) 0) y
      = some (naiveRowsIter img w (List.replicate (w*h) 0) y) := by
  induction y with
  | zero => rfl
  | succ y ih =>
    simp only [naiveRowsIterC, ih (by omega)]
    exact naiveRowIterC_eq img w h y _ w
      (by rw [naiveRowsIter_length, List.length_replicate]) himg (by omega) le_rfl

theorem computeIntegralNaiveC_eq (img : List Nat) (w h : Nat) (buf : List Nat)
    (himg : w*h ≤ img.length) :
    computeIntegralNaiveC img w h = some (computeIntegralNaive img w h buf) := by
  by_cases hwh : w = 0 ∨ h = 0
  · simp only [computeIntegralNaiveC, computeIntegralNaive, if_pos hwh]
  · simp only [computeIntegralNaiveC, computeIntegralNaive, if_neg hwh]
    exact naiveRowsIterC_eq img w h h himg le_rfl

/-! ## Claims -/

theorem sub64_zero (a : Nat) : sub64 a 0 = a % u64Mod := by
  simp only [sub64, u64Mod]
  omega

/-- Rectangle query anchored at the origin: the three border corner terms are
zero and the query returns the top-left SAT entry (reduced modulo 2^64). -/
theorem rectangleSum_origin (I : List Nat) (w x1 y1 : Nat) :
    rectangleSum I w 0 0 x1 y1 = I.getD (y1*w + x1) 0 % u64Mod := by
  simp only [rectangleSum, if_neg (by omega : ¬ (0:Nat) < 0),
    if_neg (by omega : ¬ ((0:Nat) < 0 ∧ (0:Nat) < 0)), sub64_zero]
  simp only [sub64, u64Mod]
  omega

/-- Claim C1, as literally stated (entries equal the exact origin-rectangle
sums), fails on the single-column grid of `2^32 + 2` samples of value
`2^32 - 1`: the exact sum of the whole column is `2^64 + 2^32 - 2`, so the
last u64 entry wraps around and holds `2^32 - 2` instead. -/
theorem C1_counterexample :
    ¬ ((computeIntegralSingle (List.replicate (2^32+2) (2^32-1)) 1 (2^32+2) []).getD
        ((2^32+1)*1 + 0) 0
      = rectSum (List.replicate (2^32+2) (2^32-1)) 1 0 (2^32+1)) := by
  rw [computeIntegralSingle_getD _ _ _ _ (by norm_num) (by norm_num),
    rectSum_replicate_col _ _ _ (by norm_num)]
  decide

/-- Claim C1 (amended: the entries are the origin-rectangle sums reduced
modulo `2^64`; claim C5 recovers the exact sums when the total fits in u64):
for every grid `img` with `w ≥ 1`, `h ≥ 1` and `img.size() == w*h`,
`computeIntegralSingle` produces a table of `w*h` elements whose entry at
index `y*w+x` is the sum of `img[j*w+i]` over `0 ≤ i ≤ x`, `0 ≤ j ≤ y`,
reduced modulo `2^64`. -/
theorem C1_table (img : List Nat) (w h : Nat) (buf : List Nat)
    (hw : 1 ≤ w) (hh : 1 ≤ h) (hlen : img.length = w*h) :
    (computeIntegralSingle img w h buf).length = w*h
      ∧ ∀ x, x < w → ∀ y, y < h →
        (computeIntegralSingle img w h buf).getD (y*w + x) 0
          = rectSum img w x y % u64Mod := by
  refine ⟨computeIntegralSingle_length img w h buf (by omega) (by omega), ?_⟩
  intro x hx y hy
  exact computeIntegralSingle_getD img w h buf hx hy

/-- Witness for C1 on the concrete 3x3 scenario of the spec. -/
theorem C1_witness :
    ((1:Nat) ≤ 3 ∧ ([1,2,3,4,5,6,7,8,9] : List Nat).length = 3*3)
      ∧ (computeIntegralSingle [1,2,3,4,5,6,7,8,9] 3 3 []).length = 3*3
      ∧ (computeIntegralSingle [1,2,3,4,5,6,7,8,9] 3 3 []).getD (2*3 + 2) 0
          = rectSum [1,2,3,4,5,6,7,8,9] 3 2 2 % u64Mod := by
  refine ⟨⟨by norm_num, by norm_num⟩, ?_, ?_⟩
  · exact (C1_table [1,2,3,4,5,6,7,8,9] 3 3 [] (by norm_num) (by norm_num) (by norm_num)).1
  · exact (C1_table [1,2,3,4,5,6,7,8,9] 3 3 [] (by norm_num) (by norm_num)
      (by norm_num)).2 2 (by norm_num) 2 (by norm_num)

/-- Claim C2: for every grid with `img.size() == w*h` and every worker count
(of any size, any sign), `computeIntegralMulti` produces a table element-wise
identical (here: equal as lists, which covers size and every cell) to the one
produced by `computeIntegralSingle`. -/
theorem C2_parallel_invariance (img : List Nat) (w h : Nat) (b1 b2 : List Nat)
    (num_threads : Int) (hlen : img.length = w*h) :
    computeIntegralMulti img w h b1 num_threads = computeIntegralSingle img w h b2 :=
  multi_eq_single_core img w h b1 b2 num_threads

/-- Witness for C2 on the 3x3 scenario of the spec with two workers. -/
theorem C2_witness :
    ([1,2,3,4,5,6,7,8,9] : List Nat).length = 3*3
      ∧ computeIntegralMulti [1,2,3,4,5,6,7,8,9] 3 3 [] 2
          = computeIntegralSingle [1,2,3,4,5,6,7,8,9] 3 3 [] :=
  ⟨by norm_num, C2_parallel_invariance [1,2,3,4,5,6,7,8,9] 3 3 [] [] 2 (by norm_num)⟩

/-- Claim C3: for every grid with `img.size() == w*h`, `computeIntegralNaive`
produces a table element-wise identical to `computeIntegralSingle`. -/
theorem C3_oracle_agreement (img : List Nat) (w h : Nat) (b1 b2 : List Nat)
    (hlen : img.length = w*h) :
    computeIntegralNaive img w h b1 = computeIntegralSingle img w h b2 :=
  naive_eq_single_core img w h b1 b2

/-- Witness for C3 on the 3x3 scenario of the spec. -/
theorem C3_witness :
    ([1,2,3,4,5,6,7,8,9] : List Nat).length = 3*3
      ∧ computeIntegralNaive [1,2,3,4,5,6,7,8,9] 3 3 []
          = computeIntegralSingle [1,2,3,4,5,6,7,8,9] 3 3 [] :=
  ⟨by norm_num, C3_oracle_agreement [1,2,3,4,5,6,7,8,9] 3 3 [] [] (by norm_num)⟩

/-- Claim C4, as literally stated (the inclusion-exclusion value equals the
exact rectangle sum for every grid), fails on the single-column grid of
`2^32 + 2` samples of value `2^32 - 1` with the full-column rectangle: the
wrapped SAT corner gives `2^32 - 2`, not the exact `2^64 + 2^32 - 2`. -/
theorem C4_counterexample :
    rectangleSum (computeIntegralSingle (List.replicate (2^32+2) (2^32-1)) 1 (2^32+2) [])
        1 0 0 0 (2^32+1)
      ≠ rectBox (List.replicate (2^32+2) (2^32-1)) 1 0 0 0 (2^32+1) := by
  rw [rectBox_origin, rectSum_replicate_col _ _ _ (by norm_num), rectangleSum_origin,
    computeIntegralSingle_getD _ _ _ _ (by norm_num) (by norm_num),
    rectSum_replicate_col _ _ _ (by norm_num)]
  decide

/-- Claim C4 (amended by adding the no-overflow precondition that the total
grid sum is below `2^64`, forced by the wraparound counterexample): for the
SAT built by `computeIntegralSingle` and every inclusive rectangle
`0 ≤ x0 ≤ x1 < w`, `0 ≤ y0 ≤ y1 < h`, the u64 inclusion-exclusion value
`A - B - C + D` equals the exact sum of the samples in the rectangle. -/
theorem C4_rectangle_identity (img : List Nat) (w h : Nat) (buf : List Nat)
    (hlen : img.length = w*h) (hsum : img.sum < u64Mod)
    {x0 y0 x1 y1 : Nat} (hx01 : x0 ≤ x1) (hx1 : x1 < w) (hy01 : y0 ≤ y1) (hy1 : y1 < h) :
    rectangleSum (computeIntegralSingle img w h buf) w x0 y0 x1 y1
      = rectBox img w x0 y0 x1 y1 :=
  rectangleSum_exact img w h buf hlen hsum hx01 hx1 hy01 hy1

/-- Witness for C4: the interior rectangle (1,1)-(2,2) of the 3x3 scenario
sums to 28. -/
theorem C4_witness :
    (([1,2,3,4,5,6,7,8,9] : List Nat).sum < u64Mod)
      ∧ rectangleSum (computeIntegralSingle [1,2,3,4,5,6,7,8,9] 3 3 []) 3 1 1 2 2
          = rectBox [1,2,3,4,5,6,7,8,9] 3 1 1 2 2
      ∧ rectBox [1,2,3,4,5,6,7,8,9] 3 1 1 2 2 = 28 := by
  refine ⟨by norm_num [u64Mod], ?_, by decide⟩
  exact C4_rectangle_identity [1,2,3,4,5,6,7,8,9] 3 3 [] (by norm_num)
    (by norm_num [u64Mod]) (by norm_num) (by norm_num) (by norm_num) (by norm_num)

/-- Claim C5: for u32 samples, whenever the exact total sum is below `2^64`
(in particular whenever `w*h ≤ 2^32`), every entry of the table built by
`computeIntegralSingle` with u64 modular accumulators equals the exact
unbounded-integer rectangle sum: no accumulation wraps modulo `2^64`. -/
theorem C5_no_overflow (img : List Nat) (w h : Nat) (buf : List Nat)
    (hlen : img.length = w*h) (hu32 : ∀ v ∈ img, v < 2^32) :
    (w*h ≤ 2^32 → img.sum < 2^64)
      ∧ (img.sum < 2^64 → ∀ x, x < w → ∀ y, y < h →
          (computeIntegralSingle img w h buf).getD (y*w + x) 0 = rectSum img w x y) := by
  constructor
  · intro hwh
    have h1 := sum_lt_u64Mod_of_u32 img w h hlen
      (by intro v hv; have := hu32 v hv; norm_num at this ⊢; omega)
      (by norm_num at hwh ⊢; omega)
    norm_num [u64Mod] at h1 ⊢
    omega
  · intro hsum x hx y hy
    exact single_entry_exact img w h buf hlen (by norm_num [u64Mod]; omega) hx hy

/-- Witness for C5 on the 3x3 scenario: total sum 45 fits, entries exact. -/
theorem C5_witness :
    ((3:Nat)*3 ≤ 2^32 → ([1,2,3,4,5,6,7,8,9] : List Nat).sum < 2^64)
      ∧ (computeIntegralSingle [1,2,3,4,5,6,7,8,9] 3 3 []).getD (2*3 + 2) 0
          = rectSum [1,2,3,4,5,6,7,8,9] 3 2 2 := by
  refine ⟨(C5_no_overflow [1,2,3,4,5,6,7,8,9] 3 3 [] (by norm_num) (by decide)).1, ?_⟩
  exact (C5_no_overflow [1,2,3,4,5,6,7,8,9] 3 3 [] (by norm_num) (by decide)).2
    (by norm_num) 2 (by norm_num) 2 (by norm_num)

/-- Claim C6, as literally stated (every table is non-decreasing along rows
and columns), fails on the single-column grid of `2^32 + 2` samples of value
`2^32 - 1`: the entry at row `2^32` is `2^64 - 1` but the next entry down the
column wraps to `2^32 - 2`. -/
theorem C6_counterexample :
    ¬ ((computeIntegralSingle (List.replicate (2^32+2) (2^32-1)) 1 (2^32+2) []).getD
        ((2^32)*1 + 0) 0
      ≤ (computeIntegralSingle (List.replicate (2^32+2) (2^32-1)) 1 (2^32+2) []).getD
        ((2^32+1)*1 + 0) 0) := by
  rw [computeIntegralSingle_getD _ _ _ _ (by norm_num) (by norm_num),
    computeIntegralSingle_getD _ _ _ _ (by norm_num) (by norm_num),
    rectSum_replicate_col _ _ _ (by norm_num),
    rectSum_replicate_col _ _ _ (by norm_num)]
  decide

/-- Claim C6 (amended by adding the no-overflow precondition that the total
grid sum is below `2^64`, forced by the wraparound counterexample): the table
of `computeIntegralSingle` is non-decreasing along each row and each column,
and for non-empty grids its last entry equals the total sum of the samples. -/
theorem C6_monotone_total (img : List Nat) (w h : Nat) (buf : List Nat)
    (hlen : img.length = w*h) (hsum : img.sum < u64Mod) :
    (∀ x y, x+1 < w → y < h →
        (computeIntegralSingle img w h buf).getD (y*w + x) 0
          ≤ (computeIntegralSingle img w h buf).getD (y*w + (x+1)) 0)
      ∧ (∀ x y, x < w → y+1 < h →
        (computeIntegralSingle img w h buf).getD (y*w + x) 0
          ≤ (computeIntegralSingle img w h buf).getD ((y+1)*w + x) 0)
      ∧ (1 ≤ w → 1 ≤ h →
        (computeIntegralSingle img w h buf).getD ((h-1)*w + (w-1)) 0 = img.sum) := by
  refine ⟨?_, ?_, ?_⟩
  · intro x y hx hy
    rw [single_entry_exact img w h buf hlen hsum (by omega) hy,
      single_entry_exact img w h buf hlen hsum hx hy]
    exact rectSum_mono_x img w (by omega) y
  · intro x y hx hy
    rw [single_entry_exact img w h buf hlen hsum hx (by omega),
      single_entry_exact img w h buf hlen hsum hx hy]
    exact rectSum_mono_y img w x (by omega)
  · intro hw hh
    rw [single_entry_exact img w h buf hlen hsum (by omega) (by omega)]
    have hx1 : w - 1 + 1 = w := by omega
    have hy1 : h - 1 + 1 = h := by omega
    calc rectSum img w (w-1) (h-1) = exRect img w (w-1+1) (h-1+1) := rfl
    _ = exRect img w w h := by rw [hx1, hy1]
    _ = img.sum := exRect_full img w h hlen

/-- Witness for C6 on the 3x3 scenario: row and column steps and the total. -/
theorem C6_witness :
    (([1,2,3,4,5,6,7,8,9] : List Nat).sum < u64Mod)
      ∧ (computeIntegralSingle [1,2,3,4,5,6,7,8,9] 3 3 []).getD (1*3 + 1) 0
          ≤ (computeIntegralSingle [1,2,3,4,5,6,7,8,9] 3 3 []).getD (1*3 + 2) 0
      ∧ (computeIntegralSingle [1,2,3,4,5,6,7,8,9] 3 3 []).getD (1*3 + 1) 0
          ≤ (computeIntegralSingle [1,2,3,4,5,6,7,8,9] 3 3 []).getD (2*3 + 1) 0
      ∧ (computeIntegralSingle [1,2,3,4,5,6,7,8,9] 3 3 []).getD (2*3 + 2) 0
          = ([1,2,3,4,5,6,7,8,9] : List Nat).sum := by
  refine ⟨by norm_num [u64Mod], ?_, ?_, ?_⟩
  · exact (C6_monotone_total [1,2,3,4,5,6,7,8,9] 3 3 [] (by norm_num)
      (by norm_num [u64Mod])).1 1 1 (by norm_num) (by norm_num)
  · exact (C6_monotone_total [1,2,3,4,5,6,7,8,9] 3 3 [] (by norm_num)
      (by norm_num [u64Mod])).2.1 1 1 (by norm_num) (by norm_num)
  · exact (C6_monotone_total [1,2,3,4,5,6,7,8,9] 3 3 [] (by norm_num)
      (by norm_num [u64Mod])).2.2 (by norm_num) (by norm_num)

/-- Claim C7: for `w == 0` or `h == 0` and any grid contents, all three
builders clear the output buffer and return an empty table; no error. -/
theorem C7_degenerate (img : List Nat) (w h : Nat) (buf : List Nat)
    (num_threads : Int) (hwh : w = 0 ∨ h = 0) :
    computeIntegralSingle img w h buf = []
      ∧ computeIntegralMulti img w h buf num_threads = []
      ∧ computeIntegralNaive img w h buf = [] := by
  refine ⟨?_, ?_, ?_⟩ <;>
    simp only [computeIntegralSingle, computeIntegralMulti, computeIntegralNaive, if_pos hwh]

/-- Witness for C7: `w = 0`, `h = 5`, a stale output buffer, 4 threads. -/
theorem C7_witness :
    ((0:Nat) = 0 ∨ (5:Nat) = 0)
      ∧ computeIntegralSingle [7] 0 5 [3,3,3] = []
      ∧ computeIntegralMulti [7] 0 5 [3,3,3] 4 = []
      ∧ computeIntegralNaive [7] 0 5 [3,3,3] = [] := by
  have h := C7_degenerate [7] 0 5 [3,3,3] 4 (by norm_num)
  exact ⟨by norm_num, h.1, h.2.1, h.2.2⟩

/-- Claim C8: for `num_threads < 1` (zero or negative), `computeIntegralMulti`
silently clamps the worker count to 1 and produces exactly the table of
`num_threads == 1`, hence the table of `computeIntegralSingle`. -/
theorem C8_clamp (img : List Nat) (w h : Nat) (buf : List Nat) (num_threads : Int)
    (hnt : num_threads < 1) :
    computeIntegralMulti img w h buf num_threads = computeIntegralMulti img w h buf 1
      ∧ computeIntegralMulti img w h buf num_threads = computeIntegralSingle img w h buf := by
  have hclamp : clampThreads num_threads = clampThreads 1 := by
    unfold clampThreads
    rw [if_pos hnt, if_neg (by omega)]
  constructor
  · unfold computeIntegralMulti
    rw [hclamp]
  · exact multi_eq_single_core img w h buf buf num_threads

/-- Witness for C8 with `num_threads = -3` on the 3x3 scenario. -/
theorem C8_witness :
    ((-3:Int) < 1)
      ∧ computeIntegralMulti [1,2,3,4,5,6,7,8,9] 3 3 [] (-3)
          = computeIntegralMulti [1,2,3,4,5,6,7,8,9] 3 3 [] 1
      ∧ computeIntegralMulti [1,2,3,4,5,6,7,8,9] 3 3 [] (-3)
          = computeIntegralSingle [1,2,3,4,5,6,7,8,9] 3 3 [] := by
  have h := C8_clamp [1,2,3,4,5,6,7,8,9] 3 3 [] (-3) (by norm_num)
  exact ⟨by norm_num, h.1, h.2⟩

/-- Claim C9: `equalIntegral` returns true exactly when the two tables have
equal size and agree at every index, and on any mismatch the cross-validation
step of `main` stops with exit status 2 before any benchmarking (the `some 2`
branch of `mainCrossCheck`). -/
theorem C9_cross_check (a b : List Nat) :
    (equalIntegral a b = true
        ↔ (a.length = b.length ∧ ∀ i, i < a.length → a.getD i 0 = b.getD i 0))
      ∧ (equalIntegral a b = false → mainCrossCheck a b = some 2) :=
  ⟨equalIntegral_iff a b, mainCrossCheck_of_ne a b⟩

/-- Witness for C9: a mismatching pair aborts with status 2, an equal pair
compares true. -/
theorem C9_witness :
    equalIntegral [1] [2] = false
      ∧ mainCrossCheck [1] [2] = some 2
      ∧ equalIntegral [1,2] [1,2] = true := by
  refine ⟨by decide, (C9_cross_check [1] [2]).2 (by decide), by decide⟩

/-- Claim C10: under the precondition `img.size() ≥ w*h` owed by the caller (which none
of the builders validates), every element access of the three builders into
the grid, the intermediate row-sum table and the output table is in bounds:
the total Option-returning embeddings return `some` of the unchecked result,
never reaching the out-of-bounds (`none`) branch, for any worker count. -/
theorem C10_memory_safety (img : List Nat) (w h : Nat) (b1 b2 b3 : List Nat)
    (num_threads : Int) (himg : w*h ≤ img.length) :
    computeIntegralSingleC img w h = some (computeIntegralSingle img w h b1)
      ∧ computeIntegralMultiC img w h num_threads
          = some (computeIntegralMulti img w h b2 num_threads)
      ∧ computeIntegralNaiveC img w h = some (computeIntegralNaive img w h b3) :=
  ⟨computeIntegralSingleC_eq img w h b1 himg,
    computeIntegralMultiC_eq img w h b2 num_threads himg,
    computeIntegralNaiveC_eq img w h b3 himg⟩

/-- Witness for C10: a 2x2 window into a 5-element grid with 3 workers. -/
theorem C10_witness :
    ((2:Nat)*2 ≤ ([1,2,3,4,7] : List Nat).length)
      ∧ computeIntegralSingleC [1,2,3,4,7] 2 2
          = some (computeIntegralSingle [1,2,3,4,7] 2 2 [])
      ∧ computeIntegralMultiC [1,2,3,4,7] 2 2 3
          = some (computeIntegralMulti [1,2,3,4,7] 2 2 [] 3)
      ∧ computeIntegralNaiveC [1,2,3,4,7] 2 2
          = some (computeIntegralNaive [1,2,3,4,7] 2 2 []) := by
  have h := C10_memory_safety [1,2,3,4,7] 2 2 [] [] [] 3 (by norm_num)
  exact ⟨by norm_num, h.1, h.2.1, h.2.2⟩

end IntImg
